import Mathlib

set_option maxRecDepth 16384

/-!
Verification of the goldfish command execution engine (Go package
`internal/engine`, file engine.go) against its natural-language
specification.

The Go code is shallowly embedded: Go dynamic values (`interface{}`) become
the inductive `Value`; Go maps become association lists processed in a fixed
order (Go map iteration order is unspecified, so any property proved here
about error/success or about which keys end up assigned is order-insensitive
in the ways the claims need); the actual child process and the Go template
engine are modelled as oracles (functions supplied as parameters), since the
claims about `Execute`/`executeCommand` concern only how their results are
routed, not what the operating system does.

Numeric parsing (`strconv.Atoi`, `strconv.ParseFloat`, `strconv.ParseBool`)
is embedded as executable acceptors that follow the Go standard library
implementations: syntax (sign, digits, dot, exponent, hex floats, the
inf/nan specials, underscore placement rules) and range (int64 bounds for
Atoi; the float64 overflow threshold for ParseFloat, computed with exact
integer arithmetic).  Float *values* are never computed on by the engine --
only parse success/failure and the dynamic type tag matter -- so the
`Value.vfloat32`/`Value.vfloat64` constructors carry no payload.
-/

/-- A Go dynamic value (`interface{}`) as it can appear in the engine's
parameter maps.  `vint`, `vint32`, `vint64` are the integer types accepted
by `validateParameterType`; `vint8` stands for the narrower native integer
types (int8/int16 and the unsigned family behave identically: they all fall
into the `default` branch of the Go type switch); `vother` stands for every
remaining dynamic type.  Float payloads are abstracted away (see module
comment). -/
inductive Value where
  | vstring (s : String)
  | vbool (b : Bool)
  | vint (n : Int)
  | vint32 (n : Int)
  | vint64 (n : Int)
  | vint8 (n : Int)
  | vfloat32
  | vfloat64
  | vother
deriving Repr, DecidableEq

/-- The Go `%T` verb on a `Value`: the name of its dynamic type. -/
def Value.goType : Value → String
  | .vstring _ => "string"
  | .vbool _ => "bool"
  | .vint _ => "int"
  | .vint32 _ => "int32"
  | .vint64 _ => "int64"
  | .vint8 _ => "int8"
  | .vfloat32 => "float32"
  | .vfloat64 => "float64"
  | .vother => "other"

/-- `config.Parameter` from internal/config/config.go.  A missing `flag` is
Go's zero value `""`; a missing `default` is Go's nil interface, modelled as
`none`. -/
structure Parameter where
  name : String
  type : String
  required : Bool
  flag : String
  default : Option Value
  description : String
deriving Repr, DecidableEq

/-- `config.PlatformCommand`. -/
structure PlatformCommand where
  template : String
deriving Repr, DecidableEq

/-- `config.Command`.  The Go `Platforms` map is an association list with
lookup by key. -/
structure Command where
  name : String
  aliasName : String
  description : String
  baseCommand : String
  parameters : List Parameter
  platforms : List (String × PlatformCommand)
deriving Repr, DecidableEq

/-- A Go `map[string]interface{}` of parameters, as an association list with
at most one binding per key (maintained by `mapInsert`). -/
abbrev Params := List (String × Value)

/-- Go map read `m[k]`: the value bound to `k`, if any. -/
def mapLookup : Params → String → Option Value
  | [], _ => none
  | (k', v) :: rest, k => if k' = k then some v else mapLookup rest k

/-- Go map write `m[k] = v`: replaces the existing binding or appends. -/
def mapInsert : Params → String → Value → Params
  | [], k, v => [(k, v)]
  | (k', v') :: rest, k, v =>
      if k' = k then (k, v) :: rest else (k', v') :: mapInsert rest k v

/-- Go `_, exists := m[k]`. -/
def mapContains (m : Params) (k : String) : Bool :=
  (mapLookup m k).isSome

/-- Go map lookup in `Command.Platforms`. -/
def platLookup : List (String × PlatformCommand) → String → Option PlatformCommand
  | [], _ => none
  | (k', v) :: rest, k => if k' = k then some v else platLookup rest k

/-- `strconv.ParseBool`: the exact literal set accepted by the Go standard
library (engine.go calls it from `convertArgument`). -/
def parseBool? (s : String) : Option Bool :=
  if s = "1" ∨ s = "t" ∨ s = "T" ∨ s = "TRUE" ∨ s = "true" ∨ s = "True" then
    some true
  else if s = "0" ∨ s = "f" ∨ s = "F" ∨ s = "FALSE" ∨ s = "false" ∨ s = "False" then
    some false
  else
    none

/-- The boolean literal set of `strconv.ParseBool`, for stating claims. -/
def boolLiterals : List String :=
  ["1", "t", "T", "TRUE", "true", "True", "0", "f", "F", "FALSE", "false", "False"]

/-- Digit accumulation loop of `strconv.ParseUint` (base 10): fails on the
first non-digit character. -/
def decDigitsAux : List Char → Nat → Option Nat
  | [], acc => some acc
  | c :: rest, acc =>
      if c.isDigit then decDigitsAux rest (acc * 10 + (c.toNat - 48)) else none

/-- Decimal digit run: `some n` when the list is nonempty and all decimal
digits, with `n` its value. -/
def decDigits? : List Char → Option Nat
  | [] => none
  | cs => decDigitsAux cs 0

/-- `strconv.Atoi` (= `ParseInt(s, 10, 0)` on a 64-bit platform): optional
sign, one or more decimal digits, result within int64 range; anything else
(including trailing garbage, underscores, overflow) is an error. -/
def atoi? (s : String) : Option Int :=
  match s.toList with
  | [] => none
  | c :: rest =>
      let (neg, digits) :=
        if c = '-' then (true, rest)
        else if c = '+' then (false, rest)
        else (false, c :: rest)
      match decDigits? digits with
      | none => none
      | some n =>
          if neg then
            if n ≤ 2 ^ 63 then some (-(n : Int)) else none
          else
            if n ≤ 2 ^ 63 - 1 then some (n : Int) else none

/-- ASCII case-insensitive comparison with a lowercase letter `d`: the
`lower(c) == d` idiom of Go strconv (`lower(c) = c | 0x20`). -/
def lowEq (c d : Char) : Bool :=
  (c.toNat ||| 32) == d.toNat

/-- Case-insensitive match of `cs` against a lowercase target word. -/
def lowEqList : List Char → List Char → Bool
  | [], [] => true
  | c :: cs, t :: ts => lowEq c t && lowEqList cs ts
  | _, _ => false

/-- strconv's `special`, combined with ParseFloat's full-consumption check:
an optionally signed "inf"/"infinity" (case-insensitive), or an unsigned
"nan".  (In the Go code a sign falls through into the inf case only, so
"+nan" is rejected.) -/
def floatSpecial (cs : List Char) : Bool :=
  match cs with
  | [] => false
  | c :: rest =>
      if c = '+' || c = '-' then
        lowEqList rest ['i', 'n', 'f'] ||
        lowEqList rest ['i', 'n', 'f', 'i', 'n', 'i', 't', 'y']
      else
        lowEqList cs ['i', 'n', 'f'] ||
        lowEqList cs ['i', 'n', 'f', 'i', 'n', 'i', 't', 'y'] ||
        lowEqList cs ['n', 'a', 'n']

/-- A digit in the sense of strconv's number readers: a decimal digit, or a
hex letter when scanning a hexadecimal mantissa. -/
def goDigit (hex : Bool) (c : Char) : Bool :=
  c.isDigit || (hex && (97 ≤ (c.toNat ||| 32) && (c.toNat ||| 32) ≤ 102))

/-- The numeric value of a (possibly hex) digit character. -/
def goDigitVal (c : Char) : Nat :=
  if c.isDigit then c.toNat - 48 else (c.toNat ||| 32) - 87

/-- The `saw` tracker of strconv's `underscoreOK`: beginning of the number,
a digit (or base prefix), an underscore, or anything else. -/
inductive SawState where
  | start
  | digit
  | underscore
  | other
deriving Repr, DecidableEq

/-- Main scan of strconv's `underscoreOK`: underscores must sit between
digits (the base prefix counting as a digit). -/
def underscoreOKCore (hex : Bool) : List Char → SawState → Bool
  | [], saw => saw ≠ SawState.underscore
  | c :: cs, saw =>
      if goDigit hex c then underscoreOKCore hex cs SawState.digit
      else if c = '_' then
        if saw ≠ SawState.digit then false
        else underscoreOKCore hex cs SawState.underscore
      else if saw = SawState.underscore then false
      else underscoreOKCore hex cs SawState.other

/-- strconv's `underscoreOK` over a whole consumed token: optional sign,
optional base prefix, then the placement scan. -/
def underscoreOK (cs : List Char) : Bool :=
  let cs1 := match cs with
    | c :: rest => if c = '-' || c = '+' then rest else cs
    | [] => []
  match cs1 with
  | c0 :: c1 :: rest =>
      if c0 = '0' && (lowEq c1 'b' || lowEq c1 'o' || lowEq c1 'x') then
        underscoreOKCore (lowEq c1 'x') rest SawState.digit
      else underscoreOKCore false cs1 SawState.start
  | _ => underscoreOKCore false cs1 SawState.start

/-- State of the mantissa loop of strconv's `readFloat`: digits seen so far
as an exact natural number, whether a dot was seen, how many digits follow
the dot, and whether underscores occurred. -/
structure MantissaState where
  mant : Nat
  sawdot : Bool
  sawdigits : Bool
  fracDigits : Nat
  underscores : Bool

/-- The mantissa loop of `readFloat`: consumes digits, one dot, and
underscores; a second dot or any other character ends the loop, returning
the unconsumed remainder. -/
def mantissaLoop (base : Nat) (hex : Bool) :
    List Char → MantissaState → MantissaState × List Char
  | [], st => (st, [])
  | c :: cs, st =>
      if c = '_' then mantissaLoop base hex cs { st with underscores := true }
      else if c = '.' then
        if st.sawdot then (st, c :: cs)
        else mantissaLoop base hex cs { st with sawdot := true }
      else if goDigit hex c then
        mantissaLoop base hex cs
          { st with
            mant := st.mant * base + goDigitVal c
            sawdigits := true
            fracDigits := if st.sawdot then st.fracDigits + 1 else st.fracDigits }
      else (st, c :: cs)

/-- The exponent-digit loop of `readFloat`: digits and underscores, with the
accumulated exponent clamped exactly as in Go (`if e < 10000`). -/
def expLoop : List Char → Nat → Bool → Nat × Bool × List Char
  | [], e, u => (e, u, [])
  | c :: cs, e, u =>
      if c = '_' then expLoop cs e true
      else if c.isDigit then
        expLoop cs (if e < 10000 then e * 10 + (c.toNat - 48)  else e) u
      else (e, u, c :: cs)

/-- The exact value information `readFloat` extracts from a well-formed
number: the magnitude is `mant * 10 ^ (exp - fracDigits)` for decimal input
and `mant * 2 ^ (exp - 4 * fracDigits)` for hexadecimal input. -/
structure FloatParse where
  mant : Nat
  fracDigits : Nat
  exp : Int
  hex : Bool

/-- Final step shared by both exits of `readFloatFull`: the underscore
placement check of `readFloat` (applied to the consumed prefix, which here
is the whole string). -/
def finishFloat (orig : List Char) (st : MantissaState) (e : Int) (hex : Bool) :
    Option FloatParse :=
  if st.underscores && !(underscoreOK orig) then none
  else some ⟨st.mant, st.fracDigits, e, hex⟩

/-- strconv's `readFloat` combined with ParseFloat's requirement that the
whole string be consumed: optional sign, optional `0x` prefix (which needs
at least one further character), mantissa with at most one dot and at least
one digit, optional `e`/`p` exponent with optional sign and at least one
digit (mandatory for hex), and the underscore placement rule. -/
def readFloatFull (cs : List Char) : Option FloatParse :=
  match cs with
  | [] => none
  | _ =>
    let cs1 := match cs with
      | c :: rest => if c = '+' || c = '-' then rest else cs
      | [] => []
    let hex := match cs1 with
      | c0 :: c1 :: _ :: _ => c0 = '0' && lowEq c1 'x'
      | _ => false
    let cs2 := match cs1 with
      | c0 :: c1 :: c2 :: rest =>
          if c0 = '0' && lowEq c1 'x' then c2 :: rest else cs1
      | _ => cs1
    let base := if hex then 16 else 10
    let scanned := mantissaLoop base hex cs2 ⟨0, false, false, 0, false⟩
    let st := scanned.1
    if !st.sawdigits then none
    else
      match scanned.2 with
      | [] =>
          if hex then none
          else finishFloat cs st 0 hex
      | c :: cs3 =>
          if lowEq c (if hex then 'p' else 'e') then
            let esign : Int := match cs3 with
              | '-' :: _ => -1
              | _ => 1
            let cs4 := match cs3 with
              | '+' :: t => t
              | '-' :: t => t
              | _ => cs3
            match cs4 with
            | [] => none
            | d :: _ =>
                if !d.isDigit then none
                else
                  let scannedExp := expLoop cs4 0 false
                  if !scannedExp.2.2.isEmpty then none
                  else
                    finishFloat cs
                      { st with underscores := st.underscores || scannedExp.2.1 }
                      (esign * (scannedExp.1 : Int)) hex
          else none

/-- Smallest magnitude that `float64` correct rounding sends to infinity
(`2^1024 - 2^970`, the midpoint above the largest finite double); at or
above it, strconv returns ErrRange and the engine treats the parse as
failed. -/
def floatOverflowThreshold : Nat := 2 ^ 1024 - 2 ^ 970

/-- Whether the exact magnitude described by a `FloatParse` overflows
`float64` (underflow to zero is not an error in Go). -/
def floatOverflows (fp : FloatParse) : Bool :=
  let scale : Int :=
    if fp.hex then fp.exp - 4 * (fp.fracDigits : Int) else fp.exp - (fp.fracDigits : Int)
  let b : Nat := if fp.hex then 2 else 10
  if 0 ≤ scale then
    decide (floatOverflowThreshold ≤ fp.mant * b ^ scale.toNat)
  else
    decide (floatOverflowThreshold * b ^ (-scale).toNat ≤ fp.mant)

/-- `strconv.ParseFloat(s, 64)` returns a nil error: either an inf/nan
special, or a fully consumed well-formed number whose exact magnitude does
not overflow float64. -/
def parseFloatAccepts (s : String) : Bool :=
  let cs := s.toList
  if floatSpecial cs then true
  else
    match readFloatFull cs with
    | none => false
    | some fp => !(floatOverflows fp)

/-- `engine.ExecutionContext`.  `Command` and `Parameters` are pointers/maps
in Go and may be nil, hence `Option`; `Platform` is the string form used for
the platform-map lookup; `Timeout` is a duration in nanoseconds. -/
structure ExecutionContext where
  command : Option Command
  platform : String
  parameters : Option Params
  timeout : Nat

/-- `engine.Engine`: only the configured default timeout matters to the
embedded code paths (the platform detector is used solely to pick the shell
name, which is folded into the process oracle). -/
structure Engine where
  timeout : Nat

/-- The distinct error constructions of engine.go, one constructor per
construction site.  `exitErrorWithCode` is the `ExitErrorWithCode` struct
(its `Err` field is derived from the code and elided); all others are
`fmt.Errorf` messages, abbreviated to their variable parts. -/
inductive GoError where
  | invalidContext (reason : String)
  | unsupportedPlatform (command : String) (platform : String)
  | renderFailed (reason : String)
  | timedOut (timeout : Nat) (command : String)
  | exitErrorWithCode (code : Int)
  | executionFailed (reason : String)
deriving Repr, DecidableEq

/-- What `cmd.Run()` can report: an `*exec.ExitError` (process started and
exited non-zero, or was killed — `ExitCode()` is then the status, `-1` for a
signal), or any other error (the process could not be started). -/
inductive ExecErr where
  | exitError (code : Int)
  | startError (reason : String)
deriving Repr, DecidableEq

/-- The observable outcome of one `cmd.Run()` call together with the state
of the deadline context when it returned: `err = none` means the process ran
and exited 0. -/
structure RunOutcome where
  err : Option ExecErr
  deadlineExceeded : Bool

/-- The process world as an oracle: what running a given rendered command
string under a given timeout would report. -/
abbrev RunOracle := String → Nat → RunOutcome

/-- The Go template engine as an oracle: rendering a platform template
against the base command and parameter map either yields the final command
string or a parse/execution error message. -/
abbrev RenderOracle := Command → PlatformCommand → Params → Except String String

/-- Is an `Except` an `.ok`?  (Go: `err == nil`.) -/
def exceptOk {ε α : Type} : Except ε α → Bool
  | .ok _ => true
  | .error _ => false

/-- `Engine.validateParameterType` (engine.go): a switch on the declared
type, then a type switch on the dynamic value; for `int`/`float` a string
value is accepted when strconv fully parses it. -/
def validateParameterType (param : Parameter) (value : Value) : Except String Unit :=
  if param.type = "string" then
    match value with
    | .vstring _ => .ok ()
    | v => .error ("expected string, got " ++ v.goType)
  else if param.type = "bool" then
    match value with
    | .vbool _ => .ok ()
    | v => .error ("expected bool, got " ++ v.goType)
  else if param.type = "int" then
    match value with
    | .vint _ => .ok ()
    | .vint32 _ => .ok ()
    | .vint64 _ => .ok ()
    | .vstring s =>
        if (atoi? s).isSome then .ok ()
        else .error ("expected int, got unparseable string: " ++ s)
    | v => .error ("expected int, got " ++ v.goType)
  else if param.type = "float" then
    match value with
    | .vfloat32 => .ok ()
    | .vfloat64 => .ok ()
    | .vstring s =>
        if parseFloatAccepts s then .ok ()
        else .error ("expected float, got unparseable string: " ++ s)
    | v => .error ("expected float, got " ++ v.goType)
  else
    .error ("unsupported parameter type: " ++ param.type)

/-- First loop of `Engine.validateContext`: the first `required` parameter
(in declaration order) without an entry in the map is an error. -/
def checkRequired : List Parameter → Params → Except String Unit
  | [], _ => .ok ()
  | p :: rest, m =>
      if p.required && !(mapContains m p.name) then
        .error ("required parameter " ++ p.name ++ " is missing")
      else checkRequired rest m

/-- Second loop of `Engine.validateContext`, over the entries of the
parameter map (Go map iteration order is unspecified; the association list
order stands in for it): an entry whose key matches no declared parameter is
an error, otherwise the value must pass `validateParameterType`. -/
def checkParams (cmd : Command) : List (String × Value) → Except String Unit
  | [] => .ok ()
  | (paramName, v) :: rest =>
      match cmd.parameters.find? (fun p => p.name == paramName) with
      | none => .error ("unknown parameter: " ++ paramName)
      | some paramDef =>
          match validateParameterType paramDef v with
          | .error e => .error ("parameter " ++ paramName ++ ": " ++ e)
          | .ok () => checkParams cmd rest

/-- `Engine.validateContext`: nil checks, then the required-parameter loop,
then the per-entry loop. -/
def validateContext (ctx : ExecutionContext) : Except String Unit :=
  match ctx.command with
  | none => .error "command is nil"
  | some cmd =>
      match ctx.parameters with
      | none => .error "parameters map is nil"
      | some m =>
          match checkRequired cmd.parameters m with
          | .error e => .error e
          | .ok () => checkParams cmd m

/-- `Engine.convertArgument`: a raw positional argument string converted to
the declared type via strconv. -/
def convertArgument (arg : String) (paramType : String) : Except String Value :=
  if paramType = "string" then .ok (.vstring arg)
  else if paramType = "bool" then
    match parseBool? arg with
    | some b => .ok (.vbool b)
    | none => .error ("ParseBool: invalid syntax: " ++ arg)
  else if paramType = "int" then
    match atoi? arg with
    | some n => .ok (.vint n)
    | none => .error ("Atoi: invalid syntax: " ++ arg)
  else if paramType = "float" then
    if parseFloatAccepts arg then .ok .vfloat64
    else .error ("ParseFloat: invalid syntax: " ++ arg)
  else .error ("unsupported parameter type: " ++ paramType)

/-- Flag phase of `Engine.ParseParameters`: for each flag entry, the first
declared parameter whose flag alias matches (exactly, or with `--`
prepended to the flag name) receives the pre-typed flag value under its
canonical name.  Go iterates the flag map in unspecified order; the list
order stands in for it. -/
def applyFlags (cmd : Command) (flags : List (String × Value)) : Params :=
  flags.foldl
    (fun params fv =>
      match cmd.parameters.find? (fun p => p.flag == fv.1 || p.flag == "--" ++ fv.1) with
      | some p => mapInsert params p.name fv.2
      | none => params)
    []

/-- Positional phase of `Engine.ParseParameters`: walk the declared
parameters in order; skip those already in the map; otherwise consume the
next positional argument through `convertArgument`, or fail if the
parameter is required, or fall back to the declared default, or leave the
parameter absent. -/
def resolvePositional : List Parameter → List String → Params → Except String Params
  | [], _, params => .ok params
  | p :: rest, args, params =>
      if mapContains params p.name then resolvePositional rest args params
      else
        match args with
        | arg :: args' =>
            match convertArgument arg p.type with
            | .error e => .error ("parameter " ++ p.name ++ ": " ++ e)
            | .ok v => resolvePositional rest args' (mapInsert params p.name v)
        | [] =>
            if p.required then
              .error ("required parameter " ++ p.name ++ " not provided")
            else
              match p.default with
              | some d => resolvePositional rest [] (mapInsert params p.name d)
              | none => resolvePositional rest [] params

/-- `Engine.ParseParameters`: the flag phase followed by the positional
phase. -/
def ParseParameters (cmd : Command) (args : List String) (flags : List (String × Value)) :
    Except String Params :=
  resolvePositional cmd.parameters args (applyFlags cmd flags)

/-- The timeout actually used by `Engine.executeCommand`: a zero context
timeout falls back to the engine's configured default. -/
def effectiveTimeout (e : Engine) (timeout : Nat) : Nat :=
  if timeout = 0 then e.timeout else timeout

/-- Error routing of `Engine.executeCommand` after `cmd.Run()` returns: a
nil error is success; with the deadline exceeded the outcome is the timeout
error; an `*exec.ExitError` becomes `ExitErrorWithCode` preserving the
code; anything else is a wrapped execution failure. -/
def processRunOutcome (timeout : Nat) (command : String) (out : RunOutcome) :
    Except GoError Unit :=
  match out.err with
  | none => .ok ()
  | some e =>
      if out.deadlineExceeded then .error (.timedOut timeout command)
      else
        match e with
        | .exitError code => .error (.exitErrorWithCode code)
        | .startError reason => .error (.executionFailed reason)

/-- `Engine.executeCommand`: resolve the effective timeout, run the command
under it (via the process oracle), and route the outcome. -/
def executeCommand (e : Engine) (run : RunOracle) (command : String) (timeout : Nat) :
    Except GoError Unit :=
  processRunOutcome (effectiveTimeout e timeout) command
    (run command (effectiveTimeout e timeout))

/-- `Engine.Execute`: validate the context, look up the platform template,
render it (via the template oracle), and execute the result.  The branch
for a validated context with a nil command or parameter map is unreachable
(validation would have failed) and mirrors that a Go nil dereference cannot
occur there. -/
def Execute (e : Engine) (render : RenderOracle) (run : RunOracle)
    (ctx : ExecutionContext) : Except GoError Unit :=
  match validateContext ctx with
  | .error err => .error (.invalidContext err)
  | .ok () =>
      match ctx.command, ctx.parameters with
      | some cmd, some params =>
          match platLookup cmd.platforms ctx.platform with
          | none => .error (.unsupportedPlatform cmd.name ctx.platform)
          | some platformCmd =>
              match render cmd platformCmd params with
              | .error err => .error (.renderFailed err)
              | .ok renderedCmd => executeCommand e run renderedCmd ctx.timeout
      | _, _ => .error (.invalidContext "unreachable")

/-- Extend a satisfied-keys predicate with one more name (the shape the key
set of the working map takes after an insertion). -/
def satExtend (nm : String) (sat : String → Bool) : String → Bool :=
  fun s => s == nm || sat s

/-- How many parameters the positional walk would try to take an argument
for, given which names are already satisfied: exactly the number of
positional arguments `resolvePositional` can consume. -/
def unsatCount : List Parameter → (String → Bool) → Nat
  | [], _ => 0
  | p :: rest, sat =>
      if sat p.name then unsatCount rest sat
      else unsatCount rest (satExtend p.name sat) + 1

/-- Fixture: an optional string parameter with a flag alias, first in
declaration order. -/
def exP1 : Parameter := ⟨"p1", "string", false, "--p1", none, ""⟩

/-- Fixture: an optional string parameter without flag or default, second in
declaration order. -/
def exP2 : Parameter := ⟨"p2", "string", false, "", none, ""⟩

/-- Fixture: a command with two optional parameters `p1`, `p2`. -/
def exCmd : Command := ⟨"demo", "", "", "echo", [exP1, exP2], [("linux", ⟨"tpl"⟩)]⟩

/-- Fixture: a parameter of declared type `int`. -/
def exIntParam : Parameter := ⟨"n", "int", false, "", none, ""⟩

/-- Fixture: a parameter of declared type `float`. -/
def exFloatParam : Parameter := ⟨"x", "float", false, "", none, ""⟩

/-- Fixture: a required string parameter. -/
def exReqParam : Parameter := ⟨"r", "string", true, "", none, ""⟩

/-- Fixture: a command with a single required parameter. -/
def exCmdReq : Command := ⟨"req", "", "", "echo", [exReqParam], [("linux", ⟨"t"⟩)]⟩

/-- Fixture: an optional `int` parameter whose declared default is a string
that does not parse as an integer. -/
def exDefParam : Parameter := ⟨"d", "int", false, "", some (.vstring "not-an-int"), ""⟩

/-- Fixture: a command with a single defaulted parameter. -/
def exCmdDef : Command := ⟨"defd", "", "", "echo", [exDefParam], [("linux", ⟨"t"⟩)]⟩

/-- Lookup through a resolver result: the binding for `k` when resolution
succeeded, `none` on failure (Go returns a nil map alongside the error). -/
def lookupResult : Except String Params → String → Option Value
  | .ok m, k => mapLookup m k
  | .error _, _ => none

theorem mapLookup_insert_self (m : Params) (k : String) (v : Value) :
    mapLookup (mapInsert m k v) k = some v := by
  induction m with
  | nil => simp [mapInsert, mapLookup]
  | cons hd tl ih =>
      obtain ⟨k', v'⟩ := hd
      by_cases h : k' = k
      · simp [mapInsert, h, mapLookup]
      · simp [mapInsert, h, mapLookup, ih]

theorem mapLookup_insert_ne (m : Params) (k k' : String) (v : Value) (h : k ≠ k') :
    mapLookup (mapInsert m k v) k' = mapLookup m k' := by
  induction m with
  | nil => simp [mapInsert, mapLookup, h]
  | cons hd tl ih =>
      obtain ⟨k0, v0⟩ := hd
      by_cases h0 : k0 = k
      · simp [mapInsert, h0, mapLookup, h]
      · simp [mapInsert, h0, mapLookup, ih]

theorem mapContains_insert (m : Params) (k s : String) (v : Value) :
    mapContains (mapInsert m k v) s = (s == k || mapContains m s) := by
  by_cases h : s = k
  · subst h
    simp [mapContains, mapLookup_insert_self]
  · have hne : k ≠ s := fun hk => h hk.symm
    simp [mapContains, mapLookup_insert_ne m k s v hne, h]

theorem unsatCount_congr (ps : List Parameter) :
    ∀ sat1 sat2, (∀ s, sat1 s = sat2 s) → unsatCount ps sat1 = unsatCount ps sat2 := by
  induction ps with
  | nil => intro _ _ _; rfl
  | cons p rest ih =>
      intro sat1 sat2 h
      simp only [unsatCount, h p.name]
      by_cases hc : sat2 p.name = true
      · simp only [hc, if_true]
        exact ih sat1 sat2 h
      · simp only [Bool.not_eq_true] at hc
        simp only [hc, Bool.false_eq_true, if_false]
        have hext : ∀ s, satExtend p.name sat1 s = satExtend p.name sat2 s := by
          intro s; simp [satExtend, h s]
        rw [ih _ _ hext]

theorem resolvePositional_take (ps : List Parameter) :
    ∀ (args : List String) (m : Params),
      resolvePositional ps args m =
        resolvePositional ps (args.take (unsatCount ps (mapContains m))) m := by
  induction ps with
  | nil => intro args m; rfl
  | cons p rest ih =>
      intro args m
      by_cases hc : mapContains m p.name = true
      · simp only [resolvePositional, hc, if_true, unsatCount]
        exact ih args m
      · simp only [Bool.not_eq_true] at hc
        simp only [resolvePositional, hc, Bool.false_eq_true, if_false, unsatCount]
        cases args with
        | nil => simp [List.take]
        | cons a args' =>
            simp only [List.take]
            cases hconv : convertArgument a p.type with
            | error e => simp [hconv]
            | ok v =>
                simp only [hconv]
                have hcount :
                    unsatCount rest (satExtend p.name (mapContains m)) =
                      unsatCount rest (mapContains (mapInsert m p.name v)) := by
                  apply unsatCount_congr
                  intro s
                  simp [satExtend, mapContains_insert]
                rw [hcount]
                exact ih args' (mapInsert m p.name v)

theorem resolvePositional_nil_missing_required (ps : List Parameter) :
    ∀ (m : Params) (p : Parameter),
      (ps.map Parameter.name).Nodup → p ∈ ps → p.required = true →
      mapContains m p.name = false →
      ∃ nm, resolvePositional ps [] m =
        .error ("required parameter " ++ nm ++ " not provided") := by
  induction ps with
  | nil => intro m p _ hmem _ _; exact absurd hmem (List.not_mem_nil p)
  | cons q rest ih =>
      intro m p hnd hmem hreq hcont
      rw [List.map_cons, List.nodup_cons] at hnd
      have hqnot : q.name ∉ rest.map Parameter.name := hnd.1
      have hnd' : (rest.map Parameter.name).Nodup := hnd.2
      by_cases hq : mapContains m q.name = true
      · have hpq : p ≠ q := by
          intro h; rw [h] at hcont; rw [hcont] at hq; exact Bool.false_ne_true hq
        have hpr : p ∈ rest := by
          cases List.mem_cons.mp hmem with
          | inl h => exact absurd h hpq
          | inr h => exact h
        simp only [resolvePositional, hq, if_true]
        exact ih m p hnd' hpr hreq hcont
      · simp only [Bool.not_eq_true] at hq
        simp only [resolvePositional, hq, Bool.false_eq_true, if_false]
        by_cases hqreq : q.required = true
        · exact ⟨q.name, by simp [hqreq]⟩
        · simp only [Bool.not_eq_true] at hqreq
          have hpq : p ≠ q := by
            intro h; rw [h] at hreq; rw [hqreq] at hreq; exact Bool.false_ne_true hreq
          have hpr : p ∈ rest := by
            cases List.mem_cons.mp hmem with
            | inl h => exact absurd h hpq
            | inr h => exact h
          have hpname : p.name ≠ q.name := by
            intro h
            exact hqnot (h ▸ List.mem_map_of_mem Parameter.name hpr)
          cases hd : q.default with
          | some d =>
              simp only [hqreq, Bool.false_eq_true, if_false, hd]
              apply ih (mapInsert m q.name d) p hnd' hpr hreq
              rw [mapContains_insert]
              simp [hpname, hcont]
          | none =>
              simp only [hqreq, Bool.false_eq_true, if_false, hd]
              exact ih m p hnd' hpr hreq hcont

theorem resolvePositional_nil_preserves (ps : List Parameter) :
    ∀ (m m' : Params) (k : String),
      (∀ q ∈ ps, q.name ≠ k) →
      resolvePositional ps [] m = .ok m' →
      mapLookup m' k = mapLookup m k := by
  induction ps with
  | nil =>
      intro m m' k _ h
      simp only [resolvePositional, Except.ok.injEq] at h
      rw [h]
  | cons q rest ih =>
      intro m m' k hne h
      have hqk : q.name ≠ k := hne q (List.mem_cons_self q rest)
      have hne' : ∀ r ∈ rest, r.name ≠ k := fun r hr => hne r (List.mem_cons_of_mem q hr)
      by_cases hq : mapContains m q.name = true
      · simp only [resolvePositional, hq, if_true] at h
        exact ih m m' k hne' h
      · simp only [Bool.not_eq_true] at hq
        simp only [resolvePositional, hq, Bool.false_eq_true, if_false] at h
        by_cases hqreq : q.required = true
        · simp [hqreq] at h
        · simp only [Bool.not_eq_true] at hqreq
          cases hd : q.default with
          | some d =>
              simp only [hqreq, Bool.false_eq_true, if_false, hd] at h
              rw [ih (mapInsert m q.name d) m' k hne' h]
              exact mapLookup_insert_ne m q.name k d hqk
          | none =>
              simp only [hqreq, Bool.false_eq_true, if_false, hd] at h
              exact ih m m' k hne' h

theorem resolvePositional_nil_default (ps : List Parameter) :
    ∀ (m m' : Params) (p : Parameter) (d : Value),
      (ps.map Parameter.name).Nodup → p ∈ ps →
      mapContains m p.name = false → p.required = false → p.default = some d →
      resolvePositional ps [] m = .ok m' →
      mapLookup m' p.name = some d := by
  induction ps with
  | nil => intro m m' p d _ hmem _ _ _ _; exact absurd hmem (List.not_mem_nil p)
  | cons q rest ih =>
      intro m m' p d hnd hmem hcont hreq hdef h
      rw [List.map_cons, List.nodup_cons] at hnd
      have hqnot : q.name ∉ rest.map Parameter.name := hnd.1
      have hnd' : (rest.map Parameter.name).Nodup := hnd.2
      by_cases hpq : p = q
      · subst hpq
        simp only [resolvePositional, hcont, Bool.false_eq_true, if_false, hreq, hdef] at h
        have hrest : ∀ r ∈ rest, r.name ≠ p.name := by
          intro r hr hname
          exact hqnot (hname ▸ List.mem_map_of_mem Parameter.name hr)
        rw [resolvePositional_nil_preserves rest (mapInsert m p.name d) m' p.name hrest h]
        exact mapLookup_insert_self m p.name d
      · have hpr : p ∈ rest := by
          cases List.mem_cons.mp hmem with
          | inl hh => exact absurd hh hpq
          | inr hh => exact hh
        have hpname : p.name ≠ q.name := by
          intro hh
          exact hqnot (hh ▸ List.mem_map_of_mem Parameter.name hpr)
        by_cases hq : mapContains m q.name = true
        · simp only [resolvePositional, hq, if_true] at h
          exact ih m m' p d hnd' hpr hcont hreq hdef h
        · simp only [Bool.not_eq_true] at hq
          simp only [resolvePositional, hq, Bool.false_eq_true, if_false] at h
          by_cases hqreq : q.required = true
          · simp [hqreq] at h
          · simp only [Bool.not_eq_true] at hqreq
            cases hd : q.default with
            | some dq =>
                simp only [hqreq, Bool.false_eq_true, if_false, hd] at h
                apply ih (mapInsert m q.name dq) m' p d hnd' hpr _ hreq hdef h
                rw [mapContains_insert]
                simp [hpname, hcont]
            | none =>
                simp only [hqreq, Bool.false_eq_true, if_false, hd] at h
                exact ih m m' p d hnd' hpr hcont hreq hdef h

/-- C9: for every command, positional argument list, and flag map, the
positional walk consumes at most as many arguments as there are parameters
not already satisfied by the flag phase; the whole outcome of
`ParseParameters` — success or failure, and the parameter map produced — is
unchanged when the argument list is truncated to that count, so excess
positional arguments are silently ignored: they never enter the resulting
parameter map and never cause an error. -/
theorem c9_excess_positionals_ignored (cmd : Command) (args : List String)
    (flags : List (String × Value)) :
    ParseParameters cmd args flags =
      ParseParameters cmd
        (args.take (unsatCount cmd.parameters (mapContains (applyFlags cmd flags))))
        flags := by
  unfold ParseParameters
  exact resolvePositional_take cmd.parameters args (applyFlags cmd flags)

/-- C6: for every command with pairwise-distinct parameter names (a
documented CommandSpec invariant), if some required parameter is not
satisfied by the flag phase and no positional argument is supplied,
`ParseParameters` fails with the missing-required-parameter error (Go wraps
the name in single quotes, elided here), and — being an error — returns no
partial parameter map for downstream use. -/
theorem c6_missing_required (cmd : Command) (flags : List (String × Value)) (p : Parameter)
    (hnd : (cmd.parameters.map Parameter.name).Nodup)
    (hmem : p ∈ cmd.parameters) (hreq : p.required = true)
    (hflag : mapContains (applyFlags cmd flags) p.name = false) :
    ∃ nm, ParseParameters cmd [] flags =
      .error ("required parameter " ++ nm ++ " not provided") := by
  unfold ParseParameters
  exact resolvePositional_nil_missing_required cmd.parameters (applyFlags cmd flags) p
    hnd hmem hreq hflag

/-- Witness for C6 at a concrete command with one required parameter and no
flags. -/
theorem c6_missing_required_witness :
    ∃ nm, ParseParameters exCmdReq [] [] =
      .error ("required parameter " ++ nm ++ " not provided") :=
  c6_missing_required exCmdReq [] exReqParam (by decide) (by decide) (by decide) (by decide)

/-- C10: when the positional walk assigns a declared default (parameter not
flag-satisfied, no positional argument remaining, not required), the
default value lands in the result map verbatim — for an arbitrary `Value`
`d`, in particular one that `convertArgument` would reject for the
parameter's declared type — so no conversion and no type check happens at
resolution time. -/
theorem c10_default_assigned_verbatim (cmd : Command) (flags : List (String × Value))
    (p : Parameter) (d : Value) (m : Params)
    (hnd : (cmd.parameters.map Parameter.name).Nodup)
    (hmem : p ∈ cmd.parameters)
    (hflag : mapContains (applyFlags cmd flags) p.name = false)
    (hreq : p.required = false) (hdef : p.default = some d)
    (hok : ParseParameters cmd [] flags = .ok m) :
    mapLookup m p.name = some d := by
  unfold ParseParameters at hok
  exact resolvePositional_nil_default cmd.parameters (applyFlags cmd flags) m p d
    hnd hmem hflag hreq hdef hok

/-- Witness for C10: an `int` parameter whose default is the string
"not-an-int" still receives that string verbatim. -/
theorem c10_default_assigned_verbatim_witness :
    mapLookup [("d", Value.vstring "not-an-int")] "d" = some (Value.vstring "not-an-int") :=
  c10_default_assigned_verbatim exCmdDef [] exDefParam (Value.vstring "not-an-int")
    [("d", Value.vstring "not-an-int")] (by decide) (by decide) (by decide) (by decide)
    (by decide) (by rfl)

/-- C1 counterexample: a command with two optional parameters `p1`, `p2` in
declaration order, a flag map whose entry satisfies `p1`, and exactly one
positional argument.  `ParseParameters` assigns the positional argument to
`p2` (while `p1` keeps the flag value), refuting the claim that one
positional argument is assigned to P1 regardless of flag map contents. -/
theorem c1_counterexample :
    ParseParameters exCmd ["posarg"] [("--p1", Value.vstring "flagval")] =
      .ok [("p1", Value.vstring "flagval"), ("p2", Value.vstring "posarg")] ∧
    mapLookup [("p1", Value.vstring "flagval"), ("p2", Value.vstring "posarg")] "p1" ≠
      some (Value.vstring "posarg") ∧
    mapLookup [("p1", Value.vstring "flagval"), ("p2", Value.vstring "posarg")] "p2" =
      some (Value.vstring "posarg") :=
  ⟨by rfl, by decide, by decide⟩

/-- C1 amended: positional arguments are consumed strictly left-to-right
against parameters in declaration order, skipping only parameters already
satisfied by a flag; in particular, for a command with two optional
parameters P1, P2 in that order, one positional argument is assigned to P1
for every flag map whose flag phase has not already bound P1's name (if it
has, the argument is matched against the next unsatisfied parameter
instead), and P2 keeps its flag value or default. -/
theorem c1_positional_goes_to_first_unsatisfied (cmd : Command)
    (flags : List (String × Value)) (q1 q2 : Parameter) (a : String) (v : Value)
    (hps : cmd.parameters = [q1, q2])
    (hname : q1.name ≠ q2.name)
    (hreq1 : q1.required = false) (hreq2 : q2.required = false)
    (hflag : mapContains (applyFlags cmd flags) q1.name = false)
    (hconv : convertArgument a q1.type = .ok v) :
    exceptOk (ParseParameters cmd [a] flags) = true ∧
    lookupResult (ParseParameters cmd [a] flags) q1.name = some v ∧
    lookupResult (ParseParameters cmd [a] flags) q2.name =
      (if mapContains (applyFlags cmd flags) q2.name then
        mapLookup (applyFlags cmd flags) q2.name
      else q2.default) := by
  unfold ParseParameters
  rw [hps]
  have h21 : (q2.name == q1.name) = false := by
    rw [beq_eq_false_iff_ne]
    exact Ne.symm hname
  have hc2 : mapContains (mapInsert (applyFlags cmd flags) q1.name v) q2.name =
      mapContains (applyFlags cmd flags) q2.name := by
    rw [mapContains_insert, h21, Bool.false_or]
  simp only [resolvePositional, hflag, Bool.false_eq_true, if_false, hconv]
  by_cases hq2 : mapContains (applyFlags cmd flags) q2.name = true
  · have hc2' : mapContains (mapInsert (applyFlags cmd flags) q1.name v) q2.name = true := by
      rw [hc2]; exact hq2
    simp only [hc2', if_true, hq2, exceptOk, lookupResult]
    refine ⟨trivial, mapLookup_insert_self _ _ _, ?_⟩
    exact mapLookup_insert_ne _ _ _ _ hname
  · simp only [Bool.not_eq_true] at hq2
    have hc2' : mapContains (mapInsert (applyFlags cmd flags) q1.name v) q2.name = false := by
      rw [hc2]; exact hq2
    simp only [hc2', Bool.false_eq_true, if_false, hq2, hreq2]
    cases hd : q2.default with
    | some d =>
        simp only [exceptOk, lookupResult]
        refine ⟨trivial, ?_, ?_⟩
        · rw [mapLookup_insert_ne _ _ _ _ (Ne.symm hname)]
          exact mapLookup_insert_self _ _ _
        · rw [mapLookup_insert_self]
    | none =>
        simp only [exceptOk, lookupResult]
        refine ⟨trivial, mapLookup_insert_self _ _ _, ?_⟩
        rw [mapLookup_insert_ne _ _ _ _ hname]
        rw [mapContains] at hq2
        exact Option.not_isSome_iff_eq_none.mp (by rw [hq2]; exact Bool.false_ne_true)

/-- Witness for the amended C1 at a concrete command and empty flag map:
the single positional argument lands on `p1` and `p2` stays absent. -/
theorem c1_positional_witness :
    exceptOk (ParseParameters exCmd ["hello"] []) = true ∧
    lookupResult (ParseParameters exCmd ["hello"] []) exP1.name = some (Value.vstring "hello") ∧
    lookupResult (ParseParameters exCmd ["hello"] []) exP2.name = none := by
  have h := c1_positional_goes_to_first_unsatisfied exCmd [] exP1 exP2 "hello"
    (Value.vstring "hello") rfl (by decide) rfl rfl (by decide) (by rfl)
  exact ⟨h.1, h.2.1, by rw [h.2.2]; rfl⟩

/-- C4 counterexample: the Go type switch accepts only `int`, `int32`,
`int64`; a native 8-bit integer value falls into the default branch and is
rejected, refuting "a native integer of any width". -/
theorem c4_counterexample :
    validateParameterType exIntParam (Value.vint8 5) = .error "expected int, got int8" := by
  rfl

/-- C4 amended: for a ParameterSpec of type `int` (resp. `float`),
validation accepts values of native type int, int32 or int64 (but not the
narrower or unsigned integer widths) (resp. float32 or float64), accepts a
text value exactly when strconv fully parses it as that type, and rejects
partially-numeric text such as "12x". -/
theorem c4_numeric_validation (p q : Parameter)
    (hp : p.type = "int") (hq : q.type = "float") :
    (∀ n, validateParameterType p (.vint n) = .ok ()) ∧
    (∀ n, validateParameterType p (.vint32 n) = .ok ()) ∧
    (∀ n, validateParameterType p (.vint64 n) = .ok ()) ∧
    (∀ n, validateParameterType p (.vint8 n) ≠ .ok ()) ∧
    (∀ s, validateParameterType p (.vstring s) = .ok () ↔ (atoi? s).isSome = true) ∧
    validateParameterType p (.vstring "12x") ≠ .ok () ∧
    validateParameterType q .vfloat32 = .ok () ∧
    validateParameterType q .vfloat64 = .ok () ∧
    (∀ s, validateParameterType q (.vstring s) = .ok () ↔ parseFloatAccepts s = true) ∧
    validateParameterType q (.vstring "12x") ≠ .ok () := by
  unfold validateParameterType
  rw [hp, hq]
  refine ⟨fun n => by simp, fun n => by simp, fun n => by simp, fun n => by simp,
    fun s => ?_, ?_, by simp, by simp, fun s => ?_, ?_⟩
  · cases h : (atoi? s).isSome <;> simp [h]
  · have h12 : (atoi? "12x").isSome = false := by decide
    simp [h12]
  · cases h : parseFloatAccepts s <;> simp [h]
  · have h12 : parseFloatAccepts "12x" = false := by decide
    simp [h12]

/-- Witness for the amended C4: concrete acceptances and rejections for
`int` and `float` parameters. -/
theorem c4_numeric_validation_witness :
    validateParameterType exIntParam (Value.vstring "123") = .ok () ∧
    validateParameterType exIntParam (Value.vstring "12x") ≠ .ok () ∧
    validateParameterType exIntParam (Value.vint 7) = .ok () ∧
    validateParameterType exFloatParam (Value.vstring "2.5") = .ok () ∧
    validateParameterType exFloatParam (Value.vstring "12x") ≠ .ok () := by
  have h := c4_numeric_validation exIntParam exFloatParam rfl rfl
  exact ⟨(h.2.2.2.2.1 "123").mpr (by decide), h.2.2.2.2.2.1, h.1 7,
    (h.2.2.2.2.2.2.2.2.1 "2.5").mpr (by decide), h.2.2.2.2.2.2.2.2.2⟩

/-- C5: conversion of raw text to target type `bool` succeeds exactly on
the strconv.ParseBool literal set (`1`, `t`, `T`, `TRUE`, `true`, `True`,
`0`, `f`, `F`, `FALSE`, `false`, `False`) and fails on every other string;
conversion for any unknown declared type always fails. -/
theorem c5_bool_conversion :
    (∀ s, exceptOk (convertArgument s "bool") = boolLiterals.contains s) ∧
    (∀ t, t ≠ "string" → t ≠ "bool" → t ≠ "int" → t ≠ "float" →
      ∀ s, convertArgument s t = .error ("unsupported parameter type: " ++ t)) := by
  constructor
  · intro s
    by_cases h1 : s = "1" ∨ s = "t" ∨ s = "T" ∨ s = "TRUE" ∨ s = "true" ∨ s = "True"
    · rcases h1 with h | h | h | h | h | h <;> subst h <;> decide
    · by_cases h2 : s = "0" ∨ s = "f" ∨ s = "F" ∨ s = "FALSE" ∨ s = "false" ∨ s = "False"
      · rcases h2 with h | h | h | h | h | h <;> subst h <;> decide
      · have hb : parseBool? s = none := by
          unfold parseBool?
          rw [if_neg h1, if_neg h2]
        have hc : boolLiterals.contains s = false := by
          simp only [boolLiterals, List.contains_cons, List.contains_nil,
            Bool.or_eq_false_iff, beq_eq_false_iff_ne]
          push_neg at h1 h2
          refine ⟨h1.1, h1.2.1, h1.2.2.1, h1.2.2.2.1, h1.2.2.2.2.1, h1.2.2.2.2.2,
            h2.1, h2.2.1, h2.2.2.1, h2.2.2.2.1, h2.2.2.2.2.1, h2.2.2.2.2.2, trivial⟩
        unfold convertArgument
        rw [hc]
        simp [hb, exceptOk]
  · intro t ht1 ht2 ht3 ht4 s
    unfold convertArgument
    rw [if_neg ht1, if_neg ht2, if_neg ht3, if_neg ht4]

/-- Witness for C5: a non-literal string is not converted to bool, a
literal one is, and an unknown declared type always fails. -/
theorem c5_bool_conversion_witness :
    exceptOk (convertArgument "yes" "bool") = boolLiterals.contains "yes" ∧
    exceptOk (convertArgument "True" "bool") = boolLiterals.contains "True" ∧
    convertArgument "x" "date" = .error ("unsupported parameter type: " ++ "date") :=
  ⟨c5_bool_conversion.1 "yes", c5_bool_conversion.1 "True",
    c5_bool_conversion.2 "date" (by decide) (by decide) (by decide) (by decide) "x"⟩

theorem checkRequired_error (ps : List Parameter) :
    ∀ (m : Params) (p : Parameter), p ∈ ps → p.required = true →
      mapContains m p.name = false →
      exceptOk (checkRequired ps m) = false := by
  induction ps with
  | nil => intro m p hmem _ _; exact absurd hmem (List.not_mem_nil p)
  | cons q rest ih =>
      intro m p hmem hreq hcont
      by_cases hq : (q.required && !(mapContains m q.name)) = true
      · simp only [checkRequired, hq, if_true, exceptOk]
      · have hpq : p ≠ q := by
          intro h
          subst h
          rw [hreq, hcont] at hq
          exact hq rfl
        have hpr : p ∈ rest := by
          cases List.mem_cons.mp hmem with
          | inl h => exact absurd h hpq
          | inr h => exact h
        simp only [Bool.not_eq_true] at hq
        simp only [checkRequired, hq, Bool.false_eq_true, if_false]
        exact ih m p hpr hreq hcont

theorem checkParams_error (cmd : Command) (entries : List (String × Value)) :
    ∀ (k : String) (v : Value), (k, v) ∈ entries →
      cmd.parameters.find? (fun p => p.name == k) = none →
      exceptOk (checkParams cmd entries) = false := by
  induction entries with
  | nil => intro k v hmem _; exact absurd hmem (List.not_mem_nil (k, v))
  | cons e rest ih =>
      intro k v hmem hfind
      obtain ⟨k0, v0⟩ := e
      cases hf : cmd.parameters.find? (fun p => p.name == k0) with
      | none => simp only [checkParams, hf, exceptOk]
      | some pdef =>
          have hk : (k, v) ∈ rest := by
            cases List.mem_cons.mp hmem with
            | inl h =>
                exfalso
                have hkk : k = k0 := congrArg Prod.fst h
                rw [hkk, hf] at hfind
                exact Option.noConfusion hfind
            | inr h => exact h
          cases hv : validateParameterType pdef v0 with
          | error err => simp only [checkParams, hf, hv, exceptOk]
          | ok u =>
              simp only [checkParams, hf, hv]
              exact ih k v hk hfind

/-- C7: the context validation performed by `Execute` rejects a nil
command, rejects a nil parameter map, rejects a context missing an entry
for any required parameter, and rejects any parameter-map key that matches
no declared parameter; and whenever `validateContext` rejects, `Execute`
returns the wrapped invalid-context error without touching the renderer or
the process runner. -/
theorem c7_context_validation (ctx : ExecutionContext) :
    (ctx.command = none → exceptOk (validateContext ctx) = false) ∧
    (ctx.parameters = none → exceptOk (validateContext ctx) = false) ∧
    (∀ cmd m p, ctx.command = some cmd → ctx.parameters = some m →
      p ∈ cmd.parameters → p.required = true → mapContains m p.name = false →
      exceptOk (validateContext ctx) = false) ∧
    (∀ cmd m k v, ctx.command = some cmd → ctx.parameters = some m →
      (k, v) ∈ m → cmd.parameters.find? (fun p => p.name == k) = none →
      exceptOk (validateContext ctx) = false) ∧
    (∀ (e : Engine) (render : RenderOracle) (run : RunOracle) (err : String),
      validateContext ctx = .error err →
      Execute e render run ctx = .error (.invalidContext err)) := by
  refine ⟨?_, ?_, ?_, ?_, ?_⟩
  · intro h
    simp [validateContext, h, exceptOk]
  · intro h
    cases hc : ctx.command with
    | none => simp [validateContext, hc, exceptOk]
    | some cmd => simp [validateContext, hc, h, exceptOk]
  · intro cmd m p hc hm hmem hreq hcont
    simp only [validateContext, hc, hm]
    cases hr : checkRequired cmd.parameters m with
    | error err => simp [exceptOk]
    | ok u =>
        exfalso
        have h2 := checkRequired_error cmd.parameters m p hmem hreq hcont
        rw [hr] at h2
        simp [exceptOk] at h2
  · intro cmd m k v hc hm hmem hfind
    simp only [validateContext, hc, hm]
    cases hr : checkRequired cmd.parameters m with
    | error err => simp [exceptOk]
    | ok u => exact checkParams_error cmd m k v hmem hfind
  · intro e render run err h
    simp [Execute, h]

/-- Witness for C7: a context whose command is nil is rejected. -/
theorem c7_context_validation_witness :
    exceptOk (validateContext ⟨none, "linux", some [], 0⟩) = false :=
  (c7_context_validation ⟨none, "linux", some [], 0⟩).1 rfl

/-- C2: for every execution context that passes validation but whose
command has no platform-map entry for the context's platform, `Execute`
returns the unsupported-platform error naming the command and the platform
— and it does so for every render oracle and every process oracle, i.e.
before any template is rendered and before any child process could be
spawned. -/
theorem c2_unsupported_platform (e : Engine) (render : RenderOracle) (run : RunOracle)
    (ctx : ExecutionContext) (cmd : Command)
    (hv : validateContext ctx = .ok ())
    (hc : ctx.command = some cmd)
    (hl : platLookup cmd.platforms ctx.platform = none) :
    Execute e render run ctx = .error (.unsupportedPlatform cmd.name ctx.platform) := by
  cases hp : ctx.parameters with
  | none =>
      exfalso
      simp [validateContext, hc, hp] at hv
  | some m => simp [Execute, hv, hc, hp, hl]

/-- Witness for C2 at a concrete context: the fixture command only supports
`linux`, the context resolves platform `windows`. -/
theorem c2_unsupported_platform_witness :
    Execute ⟨30⟩ (fun _ _ _ => .ok "rendered") (fun _ _ => ⟨none, false⟩)
      ⟨some exCmd, "windows", some [], 5⟩ =
      .error (.unsupportedPlatform "demo" "windows") :=
  c2_unsupported_platform ⟨30⟩ (fun _ _ _ => .ok "rendered") (fun _ _ => ⟨none, false⟩)
    ⟨some exCmd, "windows", some [], 5⟩ exCmd (by rfl) rfl (by rfl)

/-- C3: when the process starts and exits with status `code` (1 ≤ code ≤
255, as reported by an `*exec.ExitError` with no deadline expiry), the
engine returns `ExitErrorWithCode` carrying exactly that code, and that
outcome is a different constructor from the failure produced when the
process could not be started at all. -/
theorem c3_exit_code_fidelity (e : Engine) (run : RunOracle) (command : String)
    (t : Nat) (code : Int) (h1 : 1 ≤ code) (h2 : code ≤ 255)
    (hrun : run command (effectiveTimeout e t) = ⟨some (.exitError code), false⟩) :
    executeCommand e run command t = .error (.exitErrorWithCode code) ∧
    ∀ reason, (GoError.exitErrorWithCode code) ≠ GoError.executionFailed reason := by
  constructor
  · simp [executeCommand, hrun, processRunOutcome]
  · intro reason hcontra
    exact GoError.noConfusion hcontra

/-- Witness for C3: a process oracle reporting exit status 7. -/
theorem c3_exit_code_fidelity_witness :
    executeCommand ⟨30⟩ (fun _ _ => ⟨some (.exitError 7), false⟩) "c" 5 =
      .error (.exitErrorWithCode 7) ∧
    ∀ reason, (GoError.exitErrorWithCode 7) ≠ GoError.executionFailed reason :=
  c3_exit_code_fidelity ⟨30⟩ (fun _ _ => ⟨some (.exitError 7), false⟩) "c" 5 7
    (by decide) (by decide) rfl

/-- C8: a zero context timeout resolves to the engine's configured default,
and `executeCommand` then runs the command under exactly that default —
the process oracle is always invoked with a concrete deadline, never
without one. -/
theorem c8_zero_timeout_uses_default (e : Engine) (run : RunOracle) (command : String) :
    effectiveTimeout e 0 = e.timeout ∧
    executeCommand e run command 0 =
      processRunOutcome e.timeout command (run command e.timeout) := by
  constructor
  · rfl
  · rfl
